import Mathlib

/-!
Shallow embedding of `src/warp_prism/_warp_prism.c`: the PostgreSQL
`COPY ... (FORMAT BINARY)` decoder of warp_prism.

Modelling conventions:
* The input buffer is a `List Nat`; a byte access goes through `byteAt`,
  which truncates to `% 256` (C memory bytes are 0..255).
* The host is little-endian (the `MAYBE_BSWAP` branch of the source):
  `read16/32/64` assemble big-endian wire values, output buffers store
  values little-endian, exactly as the C `write16/32/64` do on x86-64.
* `size_t` arithmetic is modelled on `Nat` with the explicit `2 ^ 64`
  wrap checks that the source performs via `add_overflow`/`mul_overflow`.
* Column value buffers and mask buffers are byte-level `List Nat` /
  `List Bool`; `PyMem_Malloc` content is modelled as zero-filled and a
  `PyMem_Realloc` tail as zero/false-filled (the C contents are
  indeterminate; no theorem below relies on the fill value).
* `PyObject*` slots store an 8-byte little-endian address; the addresses
  of `Py_None` and of a freshly built string are opaque nonzero stand-ins
  (`pyNoneAddr`, `pyStrAddr`) — the decoder never inspects them.
* Allocation inside the frame decoder is modelled as always succeeding
  (its failure paths are separate from every claim below);
  `allocate_outarrays` is additionally modelled with an explicit
  allocation oracle and an event log to reason about its cleanup path.
* Instrumentation carried in the state, absent from the C but purely
  observational: the list of (offset, size) reads performed, the growth
  count, loop-head invariant flags, and the count of `Py_None`
  references acquired.
-/

/-- Byte at index `i` of the input buffer (0..255). -/
def byteAt (bytes : List Nat) (i : Nat) : Nat :=
  bytes.getD i 0 % 256

/-- Big-endian read of `n` bytes at `off`; mirrors `read16/32/64`
(which byte-swap on a little-endian host, yielding the big-endian value). -/
def readBE (bytes : List Nat) (off : Nat) : Nat → Nat
  | 0 => 0
  | n + 1 => readBE bytes off n * 256 + byteAt bytes (off + n)

/-- Little-endian write of the low `n` bytes of `v` at `off`; mirrors the
native-endian stores `write16/32/64` on a little-endian host (`memset 0`
is the special case `v = 0`). -/
def writeLE (buf : List Nat) (off v : Nat) : Nat → List Nat
  | 0 => buf
  | n + 1 => writeLE (buf.set off (v % 256)) (off + 1) (v / 256) n

/-- Little-endian read-back of `n` bytes at `off` from an output buffer. -/
def readLE (buf : List Nat) (off : Nat) : Nat → Nat
  | 0 => 0
  | n + 1 => buf.getD off 0 + 256 * readLE buf (off + 1) n

/-- The 11 bytes of `signature` = "PGCOPY\n\xff\r\n\0". -/
def pg_signature : List Nat := [80, 71, 67, 79, 80, 89, 10, 255, 13, 10, 0]

/-- `signature_len` from the source. -/
def signature_len : Nat := 11

/-- `column_buffer_growth_factor` from the source. -/
def column_buffer_growth_factor : Nat := 2

/-- `starting_column_buffer_length` from the source. -/
def starting_column_buffer_length : Nat := 4096

/-- `datetime_offset`: 2000-01-01 in microseconds since the Unix epoch. -/
def datetime_offset : Nat := 946684800000000

/-- `date_offset`: 2000-01-01 in days since the Unix epoch. -/
def date_offset : Nat := 10957

/-- Bit pattern of `NPY_DATETIME_NAT` (`INT64_MIN`) as an unsigned 64-bit
value. -/
def npy_datetime_nat : Nat := 2 ^ 63

/-- Opaque stand-in for the address of the `Py_None` singleton. -/
def pyNoneAddr : Nat := 1

/-- Opaque stand-in for the address of a string built by
`PyUnicode_FromStringAndSize`. -/
def pyStrAddr : Nat := 2

/-- Two's-complement reading of an unsigned 16-bit value (`int16_t`). -/
def sint16 (u : Nat) : Int :=
  if u < 2 ^ 15 then (u : Int) else (u : Int) - 2 ^ 16

/-- Two's-complement reading of an unsigned 32-bit value (`int32_t`). -/
def sint32 (u : Nat) : Int :=
  if u < 2 ^ 31 then (u : Int) else (u : Int) - 2 ^ 32

/-- Two's-complement reading of an unsigned 64-bit value (`int64_t`). -/
def sint64 (u : Nat) : Int :=
  if u < 2 ^ 63 then (u : Int) else (u : Int) - 2 ^ 64

/-- Conversion of a 32-bit `datalen` to `size_t`: the C sign-extends the
`int32_t` and reinterprets it as an unsigned 64-bit size. -/
def i32_to_size (d : Nat) : Nat :=
  if d < 2 ^ 31 then d else 2 ^ 64 - 2 ^ 32 + d

/-- The nine column types of the `typeids` table, in table order. -/
inductive WPType where
  | int16
  | int32
  | int64
  | float32
  | float64
  | bool
  | object
  | datetime
  | date
deriving DecidableEq

/-- The `size` field of each `warp_prism_type` descriptor
(`sizeof(PyObject*) = 8` on the 64-bit host). -/
def typeSize : WPType → Nat
  | .int16 => 2
  | .int32 => 4
  | .int64 => 8
  | .float32 => 4
  | .float64 => 8
  | .bool => 1
  | .object => 8
  | .datetime => 8
  | .date => 8

/-- The `typeids` descriptor table, in source order (indices 0..8). -/
def typeids : List WPType :=
  [.int16, .int32, .int64, .float32, .float64, .bool, .object, .datetime, .date]

/-- `max_typeid = sizeof(typeids) / sizeof(warp_prism_type*)`, i.e. the
number of table entries (9). -/
def max_typeid : Nat := typeids.length

/-- The per-type `parse` functions. Input: the wire bytes, the offset of
the field body, and the advertised field length; output: the value whose
low `typeSize` bytes the parser stores, or `none` on failure.
`parse_int16/32/64`, `parse_float32/64` and `parse_bool` check the length
and copy the (byte-swapped) payload; `parse_datetime` adds
`datetime_offset` in 64-bit arithmetic; `parse_date` adds `date_offset`
in unsigned 32-bit arithmetic (`read32(..) + date_offset` has type
`uint32_t`) and the result is zero-extended by `write64`; `parse_text`
builds a fresh string object and stores its address (string allocation
failure is not modelled). -/
def typeParse (t : WPType) (bytes : List Nat) (off len : Nat) : Option Nat :=
  match t with
  | .int16 => if len = 2 then some (readBE bytes off 2) else none
  | .int32 => if len = 4 then some (readBE bytes off 4) else none
  | .int64 => if len = 8 then some (readBE bytes off 8) else none
  | .float32 => if len = 4 then some (readBE bytes off 4) else none
  | .float64 => if len = 8 then some (readBE bytes off 8) else none
  | .bool => if len = 1 then some (byteAt bytes off) else none
  | .object => some pyStrAddr
  | .datetime =>
      if len = 8 then some ((readBE bytes off 8 + datetime_offset) % 2 ^ 64)
      else none
  | .date =>
      if len = 4 then some ((readBE bytes off 4 + date_offset) % 2 ^ 32)
      else none

/-- The per-type `write_null` functions: the value stored in the
`typeSize`-byte slot plus whether a `Py_None` reference was acquired.
`simple_write_null` zeroes the slot; `datetime_write_null` checks the
size and stores `NPY_DATETIME_NAT`; `object_write_null` checks the size,
increfs `Py_None` and stores it. `none` models the defensive size-check
failure. -/
def write_null (t : WPType) : Option (Nat × Bool) :=
  match t with
  | .datetime => if typeSize .datetime = 8 then some (npy_datetime_nat, false) else none
  | .date => if typeSize .date = 8 then some (npy_datetime_nat, false) else none
  | .object => if typeSize .object = 8 then some (pyNoneAddr, true) else none
  | _ => some (0, false)

/-- `assert_can_consume`: `true` means an error is raised — either the
`size_t` addition `cursor + size` wraps, or the new cursor would pass
`buffer_len` (reaching `buffer_len` exactly is allowed). -/
def assert_can_consume (size cursor buffer_len : Nat) : Bool :=
  decide (2 ^ 64 ≤ cursor + size) || decide (buffer_len < cursor + size)

/-- Decoder state threaded through `warp_prism_read_binary_results`.
`cursor`, `rowCount` (`row_count`), `allocatedRows` (`allocated_rows`),
`arrays` (`outarrays`) and `masks` (`outmasks`) come from the source;
`growths` (number of `grow_outarrays` capacity doublings), `reads` (the
(offset, size) spans read from the input), `invOK` (row_count ≤ capacity
held at every row-loop head), `cursOK` (cursor ≤ input_len held at every
row-loop head), `noneRefs` (`Py_None` references acquired) and
`allocated` (column buffers were allocated) are observational
instrumentation. -/
structure DecSt where
  cursor : Nat := 0
  rowCount : Nat := 0
  allocatedRows : Nat := starting_column_buffer_length
  growths : Nat := 0
  arrays : List (List Nat) := []
  masks : List (List Bool) := []
  reads : List (Nat × Nat) := []
  invOK : Bool := true
  cursOK : Bool := true
  noneRefs : Nat := 0
  allocated : Bool := false

/-- Outcome of decoding one column of one row (the body of the
per-column `for` loop): continue with the next column, or take the
`goto error` path. -/
inductive ColRes where
  | next (s : DecSt)
  | fail (s : DecSt)

/-- The state carried by a `ColRes`. -/
def ColRes.st : ColRes → DecSt
  | .next s => s
  | .fail s => s

/-- Whether a `ColRes` continues to the next column. -/
def ColRes.isNext : ColRes → Bool
  | .next _ => true
  | .fail _ => false

/-- One column of one row: read `datalen`, record the mask bit, then
either invoke the type's null writer (`datalen == -1`, no value bytes)
or bounds-check and invoke the type's parser and advance the cursor by
`datalen`. `n` is the column index, `rowIx` the row index
(`row_count - 1`). Mirrors lines 650–679 of the source. -/
def decodeColumn (bytes : List Nat) (len : Nat) (t : WPType) (n rowIx : Nat)
    (s : DecSt) : ColRes :=
  if assert_can_consume 4 s.cursor len then .fail s
  else
    let d := readBE bytes s.cursor 4
    let s1 : DecSt :=
      { s with cursor := s.cursor + 4, reads := (s.cursor, 4) :: s.reads }
    let s2 : DecSt :=
      { s1 with
        masks := s1.masks.set n ((s1.masks.getD n []).set rowIx (d ≠ 4294967295)) }
    if d = 4294967295 then
      match write_null t with
      | none => .fail s2
      | some (v, incNone) =>
          .next
            { s2 with
              arrays :=
                s2.arrays.set n
                  (writeLE (s2.arrays.getD n []) (rowIx * typeSize t) v (typeSize t)),
              noneRefs := s2.noneRefs + (if incNone then 1 else 0) }
    else
      let size := i32_to_size d
      if assert_can_consume size s2.cursor len then .fail s2
      else
        let s3 : DecSt := { s2 with reads := (s2.cursor, size) :: s2.reads }
        match typeParse t bytes s3.cursor size with
        | none => .fail s3
        | some v =>
            .next
              { s3 with
                arrays :=
                  s3.arrays.set n
                    (writeLE (s3.arrays.getD n []) (rowIx * typeSize t) v (typeSize t)),
                cursor := s3.cursor + size }

/-- The `error:` label of the column loop: for every column from the
failing one on, `memset` `type->size` zero bytes at offset
`row_ix * column_type->size` — where `column_type` is the type of the
column that failed (`failSize` is its element size), exactly as the
source does. -/
def error_null_columns (failSize rowIx : Nat) :
    List WPType → Nat → DecSt → DecSt
  | [], _, s => s
  | ty :: rest, n, s =>
      error_null_columns failSize rowIx rest (n + 1)
        { s with
          arrays :=
            s.arrays.set n
              (writeLE (s.arrays.getD n []) (rowIx * failSize) 0 (typeSize ty)) }

/-- Outcome of the per-row column loop: all columns decoded, or the
`goto error` path was taken (after which the caller frees everything). -/
inductive ColsRes where
  | done (s : DecSt)
  | failed (s : DecSt)

/-- The state carried by a `ColsRes`. -/
def ColsRes.st : ColsRes → DecSt
  | .done s => s
  | .failed s => s

/-- The per-row column loop over the remaining column types (`n` is the
index of the first of them). On failure runs the `error:` null loop with
the failing column's element size. -/
def decode_row_columns (bytes : List Nat) (len rowIx : Nat) :
    List WPType → Nat → DecSt → ColsRes
  | [], _, s => .done s
  | t :: rest, n, s =>
      match decodeColumn bytes len t n rowIx s with
      | .next s1 => decode_row_columns bytes len rowIx rest (n + 1) s1
      | .fail s1 => .failed (error_null_columns (typeSize t) rowIx (t :: rest) n s1)

/-- The per-column realloc loop of `grow_outarrays`: checks
`new_row_count * size` for overflow, then reallocates the value and mask
buffers (realloc is modelled as always succeeding; the tail added by the
realloc is modelled zero/false-filled). -/
def grow_columns (nrc old : Nat) : List WPType → Nat → DecSt → Bool × DecSt
  | [], _, s => (true, s)
  | t :: rest, n, s =>
      if 2 ^ 64 ≤ nrc * typeSize t then (false, s)
      else
        grow_columns nrc old rest (n + 1)
          { s with
            arrays :=
              s.arrays.set n
                ((s.arrays.getD n []) ++ List.replicate ((nrc - old) * typeSize t) 0),
            masks :=
              s.masks.set n
                ((s.masks.getD n []) ++ List.replicate (nrc - old) false) }

/-- `grow_outarrays`: doubles the capacity. The doubled capacity is
written back (and the growth counted) before the mask-size and
per-column overflow checks, as in the source; `false` means the error
path (the source then frees everything and the caller reports the
error). -/
def grow_outarrays (types : List WPType) (s : DecSt) : Bool × DecSt :=
  let old := s.allocatedRows
  let nrc := old * column_buffer_growth_factor
  if 2 ^ 64 ≤ nrc then (false, s)
  else
    let s1 : DecSt := { s with allocatedRows := nrc, growths := s.growths + 1 }
    if 2 ^ 64 ≤ nrc * 1 then (false, s1)
    else grow_columns nrc old types 0 s1

/-- Result of `warp_prism_read_binary_results`: success with the number
of written rows, an error (`freed` records whether `free_outarrays` ran
on that error path), or fuel exhaustion of the model's row loop. -/
inductive DecRes where
  | ok (written : Nat) (s : DecSt)
  | err (freed : Bool) (s : DecSt)
  | fuelOut (s : DecSt)

/-- The state carried by a `DecRes`. -/
def DecRes.st : DecRes → DecSt
  | .ok _ s => s
  | .err _ s => s
  | .fuelOut s => s

/-- Whether a `DecRes` is a successful decode. -/
def DecRes.isOk : DecRes → Bool
  | .ok _ _ => true
  | _ => false

/-- Whether a `DecRes` is an error. -/
def DecRes.isErr : DecRes → Bool
  | .err _ _ => true
  | _ => false

/-- Whether `free_outarrays` ran before the error was surfaced
(`true` for non-error results, so that `false` pinpoints a leaking
error path). -/
def DecRes.freedFlag : DecRes → Bool
  | .err freed _ => freed
  | _ => true

/-- `have_oids`: bit 16 of the header flags. -/
def have_oids (flags : Nat) : Bool := Nat.testBit flags 16

/-- `valid_flags`: the flags word must be 0 or `1 << 16`. -/
def valid_flags (flags : Nat) : Bool :=
  decide (flags = 0) || decide (flags = 65536)

/-- The row loop of `warp_prism_read_binary_results` (lines 594–697):
read `field_count`, stop on the `-1` sentinel, reject a mismatched
field count (returning WITHOUT freeing, as the source does on that one
path), skip the OID if requested, bump `row_count` and grow on demand,
then run the column loop. `fuel` bounds the model's recursion only. -/
def warp_prism_row_loop (bytes : List Nat) (len : Nat) (types : List WPType)
    (ncolumns : Nat) (hasOids : Bool) : Nat → DecSt → DecRes
  | 0, s => .fuelOut s
  | fuel + 1, s =>
      let s0 : DecSt :=
        { s with
          invOK := s.invOK && decide (s.rowCount ≤ s.allocatedRows),
          cursOK := s.cursOK && decide (s.cursor ≤ len) }
      if assert_can_consume 2 s0.cursor len then .err true s0
      else
        let fc := readBE bytes s0.cursor 2
        let s1 : DecSt :=
          { s0 with cursor := s0.cursor + 2, reads := (s0.cursor, 2) :: s0.reads }
        if fc = 65535 then .ok s1.rowCount s1
        else if sint16 fc ≠ (ncolumns : Int) then .err false s1
        else
          let afterOid : Option DecSt :=
            if hasOids then
              if assert_can_consume 4 s1.cursor len then none
              else
                some
                  { s1 with
                    cursor := s1.cursor + 4, reads := (s1.cursor, 4) :: s1.reads }
            else some s1
          match afterOid with
          | none => .err true s1
          | some s2 =>
              let rowIx := s2.rowCount
              let s3 : DecSt := { s2 with rowCount := s2.rowCount + 1 }
              let grown : Bool × DecSt :=
                if rowIx = s2.allocatedRows then grow_outarrays types s3
                else (true, s3)
              match grown with
              | (false, s4) => .err true s4
              | (true, s4) =>
                  match decode_row_columns bytes len rowIx types 0 s4 with
                  | .failed s5 => .err true s5
                  | .done s5 => warp_prism_row_loop bytes len types ncolumns hasOids fuel s5

/-- `warp_prism_read_binary_results`: signature check, flags, header
extension, buffer allocation (modelled as always succeeding,
zero/false-filled), then the row loop. Errors before allocation carry
`allocated = false`; the `freed` flag of each error mirrors whether the
source calls `free_outarrays` on that path. -/
def warp_prism_read_binary_results (bytes : List Nat) (types : List WPType)
    (fuel : Nat) : DecRes :=
  let len := bytes.length
  let s0 : DecSt := {}
  if len < signature_len then .err false s0
  else if ¬ ((List.range signature_len).all
      fun i => byteAt bytes i == pg_signature.getD i 0) then
    .err false { s0 with reads := [(0, signature_len)] }
  else
    let s1 : DecSt := { s0 with cursor := signature_len, reads := [(0, signature_len)] }
    if assert_can_consume 4 s1.cursor len then .err false s1
    else
      let flags := readBE bytes s1.cursor 4
      let s2 : DecSt :=
        { s1 with cursor := s1.cursor + 4, reads := (s1.cursor, 4) :: s1.reads }
      if ¬ valid_flags flags then .err false s2
      else if assert_can_consume 4 s2.cursor len then .err false s2
      else
        let ext := readBE bytes s2.cursor 4
        let s3 : DecSt :=
          { s2 with cursor := s2.cursor + 4, reads := (s2.cursor, 4) :: s2.reads }
        let s4 : DecSt := { s3 with cursor := s3.cursor + ext }
        if ext ≠ 0 then .err false s4
        else
          let s5 : DecSt :=
            { s4 with
              arrays :=
                types.map fun t =>
                  List.replicate (starting_column_buffer_length * typeSize t) 0,
              masks :=
                types.map fun _ => List.replicate starting_column_buffer_length false,
              allocated := true }
          warp_prism_row_loop bytes len types types.length (have_oids flags) fuel s5

/-- Allocation events of `allocate_outarrays` / `free_outarrays`:
value-buffer and mask-buffer allocations and frees, identified by
column index. -/
inductive AllocEvent where
  | allocVal (n : Nat)
  | allocMask (n : Nat)
  | freeVal (n : Nat)
  | freeMask (n : Nat)
deriving DecidableEq

/-- `free_outarrays(ncolumns, ...)`: frees the value and mask buffers of
columns `0 .. ncolumns - 1` (as an event log, newest first). -/
def free_outarrays (ncolumns : Nat) (events : List AllocEvent) : List AllocEvent :=
  match ncolumns with
  | 0 => events
  | k + 1 => free_outarrays k (.freeMask k :: .freeVal k :: events)

/-- The per-column loop of `allocate_outarrays` over the remaining
types (`n` is the current column index). `oracle` decides whether the
`2k`-th / `2k+1`-th `PyMem_Malloc` (column `k`'s value / mask buffer)
succeeds. On any failure the source frees the failing column's partial
value buffer inline, then runs `free_outarrays(n - 1)` when `n > 0`
(the `error:` label). Returns whether allocation succeeded, plus the
event log. -/
def allocate_columns (oracle : Nat → Bool) :
    List WPType → Nat → List AllocEvent → Bool × List AllocEvent
  | [], _, events => (true, events)
  | t :: rest, n, events =>
      if 2 ^ 64 ≤ starting_column_buffer_length * typeSize t then
        (false, if n > 0 then free_outarrays (n - 1) events else events)
      else if ¬ oracle (2 * n) then
        (false, if n > 0 then free_outarrays (n - 1) events else events)
      else
        let events1 := AllocEvent.allocVal n :: events
        if ¬ oracle (2 * n + 1) then
          let events2 := AllocEvent.freeVal n :: events1
          (false, if n > 0 then free_outarrays (n - 1) events2 else events2)
        else
          allocate_columns oracle rest (n + 1) (AllocEvent.allocMask n :: events1)

/-- `allocate_outarrays`: the initial mask-size overflow check, then the
per-column allocation loop. -/
def allocate_outarrays (types : List WPType) (oracle : Nat → Bool) :
    Bool × List AllocEvent :=
  if 2 ^ 64 ≤ starting_column_buffer_length * 1 then (false, [])
  else allocate_columns oracle types 0 []

/-- The matching free event for an allocation event. -/
def AllocEvent.matchingFree : AllocEvent → AllocEvent
  | .allocVal n => .freeVal n
  | .allocMask n => .freeMask n
  | e => e

/-- Whether an event is an allocation. -/
def AllocEvent.isAlloc : AllocEvent → Bool
  | .allocVal _ => true
  | .allocMask _ => true
  | _ => false

/-- The allocations in an event log that were never freed. -/
def leakedAllocs (events : List AllocEvent) : List AllocEvent :=
  events.filter fun e => e.isAlloc && ¬ events.contains e.matchingFree

/-- The type-id validation and descriptor-selection loop of
`warp_prism_to_arrays` (lines 761–771): each id is rejected exactly when
`id_ix > max_typeid`; an accepted id selects `typeids[id_ix]`, modelled
as the partial lookup `typeids[i]?` so that an out-of-bounds table read
shows up as `none`. -/
def warp_prism_to_arrays_types (ids : List Nat) : Option (List (Option WPType)) :=
  if ids.all fun i => decide (i ≤ max_typeid) then
    some (ids.map fun i => typeids[i]?)
  else none

/-- A well-formed header followed by one row frame whose field count (2)
differs from the declared column count (1): `PGCOPY\n\xff\r\n\0`, zero
flags, zero extension length, then `field_count = 2`. -/
def c1_input : List Nat :=
  pg_signature ++ [0, 0, 0, 0] ++ [0, 0, 0, 0] ++ [0, 2]

/-- C1: the claim states that every decoding failure after the column
buffers were allocated — including a row whose `field_count` differs
from `ncolumns` — invokes `free_all` before returning. The code violates
this: on `c1_input` (one `int16` column, `field_count = 2`) the decoder
errors after allocation with `free_outarrays` never invoked
(`freedFlag = false`), leaking every column value and mask buffer. -/
theorem c1_field_count_mismatch_error_leaks :
    (warp_prism_read_binary_results c1_input [WPType.int16] 32).isErr = true ∧
    (warp_prism_read_binary_results c1_input [WPType.int16] 32).st.allocated = true ∧
    (warp_prism_read_binary_results c1_input [WPType.int16] 32).freedFlag = false := by
  refine ⟨rfl, rfl, rfl⟩

/-- Header, then row 0 with a valid `int16` field (value 1) and a valid
`datetime` field (on-wire 0), then row 1 whose `int16` field advertises
length 1 — `parse_int16` rejects that length mid-row. -/
def c2_input : List Nat :=
  pg_signature ++ [0, 0, 0, 0] ++ [0, 0, 0, 0]
    ++ [0, 2] ++ [0, 0, 0, 2] ++ [0, 1] ++ [0, 0, 0, 8] ++ [0, 0, 0, 0, 0, 0, 0, 0]
    ++ [0, 2] ++ [0, 0, 0, 1] ++ [9]

/-- C2: the claim states that when a per-column parse fails mid-row,
every yet-unwritten column slot of that row is set to its type's null
sentinel at that column's own element-size offset. The code violates
this: on `c2_input` (columns `int16`, `datetime`; row 1's `int16` parse
fails) the error path memsets zeros at offset
`row_ix * 2` (the failing column's element size) into the datetime
buffer, so the datetime slot of row 1 (bytes 8..15) holds 0 — not the
`NPY_DATETIME_NAT` sentinel `2 ^ 63` — and bytes 2..7 of row 0's
already-written datetime value are clobbered
(`946684800000000 % 65536 = 57344` is what remains of it). -/
theorem c2_error_label_wrong_offset_and_sentinel :
    (warp_prism_read_binary_results c2_input [WPType.int16, WPType.datetime] 32).isErr
      = true ∧
    readLE
      ((warp_prism_read_binary_results c2_input [WPType.int16, WPType.datetime] 32).st.arrays.getD
        1 []) 8 8 = 0 ∧
    (0 : Nat) ≠ npy_datetime_nat ∧
    readLE
      ((warp_prism_read_binary_results c2_input [WPType.int16, WPType.datetime] 32).st.arrays.getD
        1 []) 0 8 = 57344 := by
  refine ⟨rfl, rfl, by decide, rfl⟩

/-- C3: the claim states that any type-id outside 0..8 is rejected and
no descriptor is ever looked up past the end of the nine-entry table.
The code violates this at exactly id 9: the check `id_ix > max_typeid`
with `max_typeid = 9` admits it, and `typeids[9]` is then read past the
end of the table (`none` in the model's safe lookup). Ids 0..8 and ids
greater than 9 behave as claimed. -/
theorem c3_typeid_nine_passes_validation_out_of_bounds :
    warp_prism_to_arrays_types [9] = some [none] ∧
    (9 ∉ List.range max_typeid) ∧
    warp_prism_to_arrays_types [10] = none ∧
    warp_prism_to_arrays_types [8] = some [some WPType.date] := by
  refine ⟨rfl, by decide, rfl, rfl⟩

/-- C4: the claim states `allocate` is all-or-nothing: on any allocation
failure everything already allocated is freed. The code violates this:
with two `int16` columns and the fourth `PyMem_Malloc` (column 1's mask
buffer) failing, the error path frees column 1's partial value buffer
inline but then calls `free_outarrays(n - 1) = free_outarrays(0)`,
which frees nothing — column 0's value and mask buffers leak. -/
theorem c4_allocate_outarrays_leaks_previous_column :
    (allocate_outarrays [WPType.int16, WPType.int16] (fun k => k ≠ 3)).1 = false ∧
    leakedAllocs (allocate_outarrays [WPType.int16, WPType.int16] (fun k => k ≠ 3)).2
      = [AllocEvent.allocMask 0, AllocEvent.allocVal 0] := by
  refine ⟨rfl, by decide⟩

/-- Header, one row, one `date` field of on-wire int32 −20000
(bytes `FF FF B1 E0`), then the end-of-data sentinel. -/
def c5_input : List Nat :=
  pg_signature ++ [0, 0, 0, 0] ++ [0, 0, 0, 0]
    ++ [0, 1] ++ [0, 0, 0, 4, 255, 255, 177, 224] ++ [255, 255]

/-- C5: the claim states a date field with on-wire signed value `v`
stores the 64-bit signed integer `v + 10957`, sign-extending when the
result is negative. The code violates this for dates before 1970:
`read32(..) + date_offset` is computed in `uint32_t` and zero-extended
by `write64`, so on-wire −20000 decodes to the 64-bit value
4294958253 = (−9043) mod 2^32 instead of −9043. (For `v + 10957 ≥ 0`
the two agree, e.g. on-wire 0 does store 10957.) -/
theorem c5_parse_date_zero_extends_negative_result :
    (warp_prism_read_binary_results c5_input [WPType.date] 32).isOk = true ∧
    readLE ((warp_prism_read_binary_results c5_input [WPType.date] 32).st.arrays.getD 0 [])
      0 8 = 4294958253 ∧
    sint64 4294958253 ≠ (-20000 : Int) + 10957 := by
  refine ⟨rfl, rfl, by decide⟩

/-- `assert_can_consume` does not raise exactly when the cursor advance
neither wraps `size_t` nor passes the end of the buffer. -/
theorem assert_can_consume_eq_false {size cursor len : Nat} :
    assert_can_consume size cursor len = false ↔
      cursor + size < 2 ^ 64 ∧ cursor + size ≤ len := by
  simp only [assert_can_consume, Bool.or_eq_false_iff, decide_eq_false_iff_not, not_le,
    not_lt]

/-- `List.getD` after `List.set` at the same in-range index. -/
theorem getD_set_self {α : Type} (l : List α) (n : Nat) (x d : α) (h : n < l.length) :
    (l.set n x).getD n d = x := by
  simp [List.getD_eq_getElem?_getD, List.getElem?_set, h]

/-- `List.getD` after `List.set` at a different index. -/
theorem getD_set_ne {α : Type} (l : List α) {n m : Nat} (x d : α) (h : n ≠ m) :
    (l.set n x).getD m d = l.getD m d := by
  simp [List.getD_eq_getElem?_getD, List.getElem?_set, h]

/-- `writeLE` preserves the buffer length. -/
theorem length_writeLE : ∀ (n : Nat) (buf : List Nat) (off v : Nat),
    (writeLE buf off v n).length = buf.length
  | 0, _, _, _ => rfl
  | n + 1, buf, off, v => by
      rw [writeLE, length_writeLE n, List.length_set]

/-- `writeLE` does not touch indices below `off`. -/
theorem getD_writeLE_lt : ∀ (n : Nat) (buf : List Nat) (off v i : Nat), i < off →
    (writeLE buf off v n).getD i 0 = buf.getD i 0
  | 0, _, _, _, _, _ => rfl
  | n + 1, buf, off, v, i, h => by
      rw [writeLE, getD_writeLE_lt n _ _ _ _ (by omega),
        getD_set_ne _ _ _ (by omega)]

/-- Reading back an in-range little-endian write returns the value. -/
theorem readLE_writeLE : ∀ (n : Nat) (buf : List Nat) (off v : Nat),
    off + n ≤ buf.length → v < 256 ^ n → readLE (writeLE buf off v n) off n = v
  | 0, _, _, v, _, hv => by
      rw [readLE]
      omega
  | n + 1, buf, off, v, hlen, hv => by
      rw [writeLE, readLE, getD_writeLE_lt n _ _ _ _ (by omega),
        getD_set_self _ _ _ _ (by omega),
        readLE_writeLE n _ _ _ (by rw [List.length_set]; omega)
          (by
            have h2 : v / 256 < 256 ^ n := by
              rw [Nat.div_lt_iff_lt_mul (by norm_num)]
              calc v < 256 ^ (n + 1) := hv
                _ = 256 ^ n * 256 := by rw [pow_succ]
            exact h2)]
      exact Nat.mod_add_div v 256

/-- A big-endian read of `n` bytes is below `256 ^ n`. -/
theorem readBE_lt : ∀ (n : Nat) (bytes : List Nat) (off : Nat),
    readBE bytes off n < 256 ^ n
  | 0, _, _ => by rw [readBE]; norm_num
  | n + 1, bytes, off => by
      rw [readBE, pow_succ]
      have h1 := readBE_lt n bytes off
      have h2 : byteAt bytes (off + n) < 256 := Nat.mod_lt _ (by norm_num)
      calc readBE bytes off n * 256 + byteAt bytes (off + n)
          < readBE bytes off n * 256 + 256 := by omega
        _ = (readBE bytes off n + 1) * 256 := by ring
        _ ≤ 256 ^ n * 256 := by
            have : readBE bytes off n + 1 ≤ 256 ^ n := h1
            exact Nat.mul_le_mul_right 256 this

/-- C10: for a field whose declared 32-bit length is negative but not
−1, the sign-extended `size_t` length is at least `2 ^ 64 − 2 ^ 31`, so
`assert_can_consume` fails for any realizable buffer
(`len < 2 ^ 64 − 2 ^ 31`): the column decode takes the error path with
the cursor advanced only past the 4 length bytes and with no value-byte
read recorded. -/
theorem c10_negative_datalen_rejected (bytes : List Nat) (len : Nat) (t : WPType)
    (n rowIx : Nat) (s : DecSt)
    (h4 : s.cursor + 4 ≤ len) (hlen : len < 2 ^ 64 - 2 ^ 31)
    (hneg : 2 ^ 31 ≤ readBE bytes s.cursor 4)
    (hm1 : readBE bytes s.cursor 4 ≠ 4294967295) :
    (decodeColumn bytes len t n rowIx s).isNext = false ∧
    (decodeColumn bytes len t n rowIx s).st.cursor = s.cursor + 4 ∧
    (decodeColumn bytes len t n rowIx s).st.reads = (s.cursor, 4) :: s.reads := by
  have hd4 := readBE_lt 4 bytes s.cursor
  have ha : assert_can_consume 4 s.cursor len = false := by
    rw [assert_can_consume_eq_false]
    omega
  have hsz : i32_to_size (readBE bytes s.cursor 4) =
      2 ^ 64 - 2 ^ 32 + readBE bytes s.cursor 4 := by
    rw [i32_to_size, if_neg (by omega)]
  have ha2 : assert_can_consume (i32_to_size (readBE bytes s.cursor 4))
      (s.cursor + 4) len = true := by
    rw [hsz, assert_can_consume]
    simp only [Bool.or_eq_true, decide_eq_true_eq]
    omega
  rw [decodeColumn]
  simp only [ha, Bool.false_eq_true, if_false, if_neg hm1, ha2, if_true]
  exact ⟨rfl, rfl, rfl⟩

/-- Witness for `c10_negative_datalen_rejected` at datalen −2
(bytes `FF FF FF FE`), an `int16` column and a 4-byte input. -/
theorem c10_negative_datalen_rejected_witness :
    (decodeColumn [255, 255, 255, 254] 4 WPType.int16 0 0 {}).isNext = false ∧
    (decodeColumn [255, 255, 255, 254] 4 WPType.int16 0 0 {}).st.cursor = (0 : Nat) + 4 ∧
    (decodeColumn [255, 255, 255, 254] 4 WPType.int16 0 0 {}).st.reads = [((0 : Nat), 4)] :=
  c10_negative_datalen_rejected [255, 255, 255, 254] 4 WPType.int16 0 0 {}
    (by decide) (by decide) (by decide) (by decide)

/-- Unsigned 64-bit addition of a small offset agrees with signed
addition as long as the signed result does not overflow upward. -/
theorem sint64_add_small (u D : Nat) (hu : u < 2 ^ 64) (hD : D < 2 ^ 63)
    (hr : sint64 u + (D : Int) < 2 ^ 63) :
    sint64 ((u + D) % 2 ^ 64) = sint64 u + (D : Int) := by
  rcases Nat.lt_or_ge (u + D) (2 ^ 64) with h | h
  · rw [Nat.mod_eq_of_lt h]
    unfold sint64 at hr ⊢
    split_ifs at hr ⊢ <;> push_cast at hr ⊢ <;> omega
  · have hm : (u + D) % 2 ^ 64 = u + D - 2 ^ 64 := by
      rw [Nat.mod_eq_sub_mod h, Nat.mod_eq_of_lt (by omega)]
    rw [hm]
    unfold sint64 at hr ⊢
    split_ifs at hr ⊢ <;> push_cast at hr ⊢ <;> omega

/-- C7: a non-null datetime field (declared length 8) with on-wire
big-endian value `u` stores `(u + 946684800000000) mod 2 ^ 64` in the
8-byte slot — i.e. the signed value `v + 946684800000000` whenever that
does not overflow `int64` — records mask = true, and advances the cursor
past the 4 length bytes and the 8 value bytes. -/
theorem c7_datetime_adds_epoch_offset (bytes : List Nat) (len : Nat) (n rowIx : Nat)
    (s : DecSt)
    (hread : s.cursor + 12 ≤ len) (hlen : len < 2 ^ 64)
    (hd : readBE bytes s.cursor 4 = 8)
    (hn : n < s.arrays.length) (hnm : n < s.masks.length)
    (hbuf : rowIx * 8 + 8 ≤ (s.arrays.getD n []).length)
    (hmask : rowIx < (s.masks.getD n []).length)
    (hrange : sint64 (readBE bytes (s.cursor + 4) 8) + (946684800000000 : Int) < 2 ^ 63) :
    (decodeColumn bytes len WPType.datetime n rowIx s).isNext = true ∧
    (decodeColumn bytes len WPType.datetime n rowIx s).st.cursor = s.cursor + 12 ∧
    ((decodeColumn bytes len WPType.datetime n rowIx s).st.masks.getD n []).getD rowIx false
      = true ∧
    readLE ((decodeColumn bytes len WPType.datetime n rowIx s).st.arrays.getD n [])
        (rowIx * 8) 8
      = (readBE bytes (s.cursor + 4) 8 + datetime_offset) % 2 ^ 64 ∧
    sint64 (readLE ((decodeColumn bytes len WPType.datetime n rowIx s).st.arrays.getD n [])
        (rowIx * 8) 8)
      = sint64 (readBE bytes (s.cursor + 4) 8) + (946684800000000 : Int) := by
  have ha : assert_can_consume 4 s.cursor len = false := by
    rw [assert_can_consume_eq_false]; omega
  have ha2 : assert_can_consume 8 (s.cursor + 4) len = false := by
    rw [assert_can_consume_eq_false]; omega
  have hsz8 : i32_to_size 8 = 8 := by rw [i32_to_size]; norm_num
  have hne8 : (8 : Nat) ≠ 4294967295 := by norm_num
  have hslot : readLE
      (writeLE (s.arrays.getD n []) (rowIx * 8)
        ((readBE bytes (s.cursor + 4) 8 + datetime_offset) % 2 ^ 64) 8)
      (rowIx * 8) 8
      = (readBE bytes (s.cursor + 4) 8 + datetime_offset) % 2 ^ 64 := by
    refine readLE_writeLE 8 _ _ _ (by omega) ?_
    have h8 : (256 : Nat) ^ 8 = 2 ^ 64 := by norm_num
    rw [h8]
    exact Nat.mod_lt _ (by norm_num)
  rw [decodeColumn]
  simp only [hd, ha, Bool.false_eq_true, if_false, if_neg hne8, hsz8, ha2, typeParse,
    reduceIte, typeSize, ColRes.isNext, ColRes.st]
  refine ⟨trivial, trivial, ?_, ?_, ?_⟩
  · rw [getD_set_self _ _ _ _ hnm, getD_set_self _ _ _ _ hmask]
    decide
  · rw [getD_set_self _ _ _ _ hn]
    exact hslot
  · rw [getD_set_self _ _ _ _ hn, hslot]
    have h := sint64_add_small (readBE bytes (s.cursor + 4) 8) datetime_offset
      (readBE_lt 8 bytes (s.cursor + 4)) (by decide)
      (by simp only [datetime_offset]; exact_mod_cast hrange)
    simp only [datetime_offset] at h ⊢
    exact_mod_cast h

/-- Witness for `c7_datetime_adds_epoch_offset`: on-wire int64 = 0
decodes to 946684800000000 with mask = true. -/
theorem c7_datetime_adds_epoch_offset_witness :
    (decodeColumn [0, 0, 0, 8, 0, 0, 0, 0, 0, 0, 0, 0] 12 WPType.datetime 0 0
        { arrays := [List.replicate 8 0], masks := [[false]] }).isNext = true ∧
    (decodeColumn [0, 0, 0, 8, 0, 0, 0, 0, 0, 0, 0, 0] 12 WPType.datetime 0 0
        { arrays := [List.replicate 8 0], masks := [[false]] }).st.cursor = (0 : Nat) + 12 ∧
    ((decodeColumn [0, 0, 0, 8, 0, 0, 0, 0, 0, 0, 0, 0] 12 WPType.datetime 0 0
        { arrays := [List.replicate 8 0], masks := [[false]] }).st.masks.getD 0 []).getD 0 false
      = true ∧
    readLE ((decodeColumn [0, 0, 0, 8, 0, 0, 0, 0, 0, 0, 0, 0] 12 WPType.datetime 0 0
        { arrays := [List.replicate 8 0], masks := [[false]] }).st.arrays.getD 0 [])
        ((0 : Nat) * 8) 8
      = (readBE [0, 0, 0, 8, 0, 0, 0, 0, 0, 0, 0, 0] ((0 : Nat) + 4) 8 + datetime_offset)
          % 2 ^ 64 ∧
    sint64 (readLE ((decodeColumn [0, 0, 0, 8, 0, 0, 0, 0, 0, 0, 0, 0] 12 WPType.datetime 0 0
        { arrays := [List.replicate 8 0], masks := [[false]] }).st.arrays.getD 0 [])
        ((0 : Nat) * 8) 8)
      = sint64 (readBE [0, 0, 0, 8, 0, 0, 0, 0, 0, 0, 0, 0] ((0 : Nat) + 4) 8)
          + (946684800000000 : Int) :=
  c7_datetime_adds_epoch_offset [0, 0, 0, 8, 0, 0, 0, 0, 0, 0, 0, 0] 12 0 0
    { arrays := [List.replicate 8 0], masks := [[false]] }
    (by decide) (by decide) (by decide) (by decide) (by decide) (by decide) (by decide)
    (by decide)

/-- The null-sentinel value each type's null writer stores (spec §3):
all-zero bytes for the fixed-width numeric, float and bool types, the
not-a-time sentinel for datetime and date, the `Py_None` reference for
text. -/
def nullSentinelValue : WPType → Nat
  | .datetime => npy_datetime_nat
  | .date => npy_datetime_nat
  | .object => pyNoneAddr
  | _ => 0

/-- How many `Py_None` references the type's null writer acquires. -/
def nullNoneRefs : WPType → Nat
  | .object => 1
  | _ => 0

/-- C8: a field whose declared length is −1 records mask = false for
that row and column, stores the type's null sentinel in the value slot
(acquiring a `Py_None` reference for a text column), consumes only the
4 length bytes, and continues to the next column. -/
theorem c8_null_field_writes_sentinel (bytes : List Nat) (len : Nat) (t : WPType)
    (n rowIx : Nat) (s : DecSt)
    (h4 : s.cursor + 4 ≤ len) (hlen : len < 2 ^ 64)
    (hd : readBE bytes s.cursor 4 = 4294967295)
    (hn : n < s.arrays.length) (hnm : n < s.masks.length)
    (hbuf : rowIx * typeSize t + typeSize t ≤ (s.arrays.getD n []).length)
    (hmask : rowIx < (s.masks.getD n []).length) :
    (decodeColumn bytes len t n rowIx s).isNext = true ∧
    (decodeColumn bytes len t n rowIx s).st.cursor = s.cursor + 4 ∧
    ((decodeColumn bytes len t n rowIx s).st.masks.getD n []).getD rowIx true = false ∧
    readLE ((decodeColumn bytes len t n rowIx s).st.arrays.getD n [])
        (rowIx * typeSize t) (typeSize t) = nullSentinelValue t ∧
    (decodeColumn bytes len t n rowIx s).st.noneRefs = s.noneRefs + nullNoneRefs t := by
  have ha : assert_can_consume 4 s.cursor len = false := by
    rw [assert_can_consume_eq_false]; omega
  cases t <;>
    (rw [decodeColumn]
     simp only [ha, Bool.false_eq_true, if_false, hd, reduceIte, write_null, typeSize,
       ColRes.isNext, ColRes.st, nullSentinelValue, nullNoneRefs, if_true]
     simp only [typeSize] at hbuf
     refine ⟨trivial, trivial, ?_, ?_, trivial⟩
     · rw [getD_set_self _ _ _ _ hnm, getD_set_self _ _ _ _ hmask]
       simp
     · rw [getD_set_self _ _ _ _ hn]
       exact readLE_writeLE _ _ _ _ (by omega) (by norm_num [npy_datetime_nat, pyNoneAddr]))

/-- Witness for `c8_null_field_writes_sentinel` on a datetime column:
declared length −1 stores the not-a-time sentinel with mask = false. -/
theorem c8_null_field_writes_sentinel_witness :
    (decodeColumn [255, 255, 255, 255] 4 WPType.datetime 0 0
        { arrays := [List.replicate 8 0], masks := [[true]] }).isNext = true ∧
    (decodeColumn [255, 255, 255, 255] 4 WPType.datetime 0 0
        { arrays := [List.replicate 8 0], masks := [[true]] }).st.cursor = (0 : Nat) + 4 ∧
    ((decodeColumn [255, 255, 255, 255] 4 WPType.datetime 0 0
        { arrays := [List.replicate 8 0], masks := [[true]] }).st.masks.getD 0 []).getD 0 true
      = false ∧
    readLE ((decodeColumn [255, 255, 255, 255] 4 WPType.datetime 0 0
        { arrays := [List.replicate 8 0], masks := [[true]] }).st.arrays.getD 0 [])
        ((0 : Nat) * typeSize WPType.datetime) (typeSize WPType.datetime)
      = nullSentinelValue WPType.datetime ∧
    (decodeColumn [255, 255, 255, 255] 4 WPType.datetime 0 0
        { arrays := [List.replicate 8 0], masks := [[true]] }).st.noneRefs
      = (0 : Nat) + nullNoneRefs WPType.datetime :=
  c8_null_field_writes_sentinel [255, 255, 255, 255] 4 WPType.datetime 0 0
    { arrays := [List.replicate 8 0], masks := [[true]] }
    (by decide) (by decide) (by decide) (by decide) (by decide) (by decide) (by decide)

/-- All reads recorded in an event list stay inside a buffer of length
`len` (each (offset, size) span satisfies offset + size ≤ len, so no
byte at an offset greater than `len - 1` is ever touched). -/
def readsInBounds (len : Nat) (rs : List (Nat × Nat)) : Bool :=
  rs.all fun e => decide (e.1 + e.2 ≤ len)

/-- Decoding one column leaves the row counter, the capacity, the
growth count, the loop-head invariant flags and the allocation flag
unchanged. -/
theorem decodeColumn_preserves (bytes : List Nat) (len : Nat) (t : WPType)
    (n rowIx : Nat) (s : DecSt) :
    (decodeColumn bytes len t n rowIx s).st.rowCount = s.rowCount ∧
    (decodeColumn bytes len t n rowIx s).st.allocatedRows = s.allocatedRows ∧
    (decodeColumn bytes len t n rowIx s).st.growths = s.growths ∧
    (decodeColumn bytes len t n rowIx s).st.invOK = s.invOK ∧
    (decodeColumn bytes len t n rowIx s).st.cursOK = s.cursOK ∧
    (decodeColumn bytes len t n rowIx s).st.allocated = s.allocated := by
  simp only [decodeColumn]
  repeat' split
  all_goals exact ⟨rfl, rfl, rfl, rfl, rfl, rfl⟩

/-- The `error:` null loop changes only the value buffers. -/
theorem error_null_columns_preserves (failSize rowIx : Nat) :
    ∀ (rest : List WPType) (n : Nat) (s : DecSt),
    (error_null_columns failSize rowIx rest n s).rowCount = s.rowCount ∧
    (error_null_columns failSize rowIx rest n s).allocatedRows = s.allocatedRows ∧
    (error_null_columns failSize rowIx rest n s).growths = s.growths ∧
    (error_null_columns failSize rowIx rest n s).invOK = s.invOK ∧
    (error_null_columns failSize rowIx rest n s).cursOK = s.cursOK ∧
    (error_null_columns failSize rowIx rest n s).allocated = s.allocated ∧
    (error_null_columns failSize rowIx rest n s).reads = s.reads ∧
    (error_null_columns failSize rowIx rest n s).cursor = s.cursor
  | [], _, _ => ⟨rfl, rfl, rfl, rfl, rfl, rfl, rfl, rfl⟩
  | ty :: rest, n, s => by
      rw [error_null_columns]
      exact error_null_columns_preserves failSize rowIx rest (n + 1) _

/-- The per-row column loop leaves the row counter, the capacity, the
growth count, the loop-head invariant flags and the allocation flag
unchanged. -/
theorem decode_row_columns_preserves (bytes : List Nat) (len rowIx : Nat) :
    ∀ (rest : List WPType) (n : Nat) (s : DecSt),
    (decode_row_columns bytes len rowIx rest n s).st.rowCount = s.rowCount ∧
    (decode_row_columns bytes len rowIx rest n s).st.allocatedRows = s.allocatedRows ∧
    (decode_row_columns bytes len rowIx rest n s).st.growths = s.growths ∧
    (decode_row_columns bytes len rowIx rest n s).st.invOK = s.invOK ∧
    (decode_row_columns bytes len rowIx rest n s).st.cursOK = s.cursOK ∧
    (decode_row_columns bytes len rowIx rest n s).st.allocated = s.allocated
  | [], _, _ => ⟨rfl, rfl, rfl, rfl, rfl, rfl⟩
  | t :: rest, n, s => by
      have hcol := decodeColumn_preserves bytes len t n rowIx s
      rw [decode_row_columns]
      cases hc : decodeColumn bytes len t n rowIx s with
      | next s1 =>
          have hrec := decode_row_columns_preserves bytes len rowIx rest (n + 1) s1
          rw [hc] at hcol
          simp only [ColRes.st] at hcol
          simp only [hrec.1, hrec.2.1, hrec.2.2.1, hrec.2.2.2.1, hrec.2.2.2.2.1,
            hrec.2.2.2.2.2, hcol.1, hcol.2.1, hcol.2.2.1, hcol.2.2.2.1, hcol.2.2.2.2.1,
            hcol.2.2.2.2.2]
          exact ⟨trivial, trivial, trivial, trivial, trivial, trivial⟩
      | fail s1 =>
          have hnull := error_null_columns_preserves (typeSize t) rowIx (t :: rest) n s1
          rw [hc] at hcol
          simp only [ColRes.st] at hcol
          simp only [ColsRes.st]
          simp only [hnull.1, hnull.2.1, hnull.2.2.1, hnull.2.2.2.1, hnull.2.2.2.2.1,
            hnull.2.2.2.2.2.1, hcol.1, hcol.2.1, hcol.2.2.1, hcol.2.2.2.1, hcol.2.2.2.2.1,
            hcol.2.2.2.2.2]
          exact ⟨trivial, trivial, trivial, trivial, trivial, trivial⟩

/-- The grow loop changes only the value and mask buffers. -/
theorem grow_columns_preserves (nrc old : Nat) :
    ∀ (rest : List WPType) (n : Nat) (s : DecSt),
    (grow_columns nrc old rest n s).2.rowCount = s.rowCount ∧
    (grow_columns nrc old rest n s).2.allocatedRows = s.allocatedRows ∧
    (grow_columns nrc old rest n s).2.growths = s.growths ∧
    (grow_columns nrc old rest n s).2.invOK = s.invOK ∧
    (grow_columns nrc old rest n s).2.cursOK = s.cursOK ∧
    (grow_columns nrc old rest n s).2.allocated = s.allocated ∧
    (grow_columns nrc old rest n s).2.reads = s.reads ∧
    (grow_columns nrc old rest n s).2.cursor = s.cursor
  | [], _, _ => ⟨rfl, rfl, rfl, rfl, rfl, rfl, rfl, rfl⟩
  | t :: rest, n, s => by
      rw [grow_columns]
      split
      · exact ⟨rfl, rfl, rfl, rfl, rfl, rfl, rfl, rfl⟩
      · exact grow_columns_preserves nrc old rest (n + 1) _

/-- Effects of `grow_outarrays`: it never touches the row counter, the
invariant flags or the cursor; the capacity either stays (only on the
pre-doubling overflow error) or doubles with the growth count bumped;
and on success it has doubled. -/
theorem grow_outarrays_spec (types : List WPType) (s : DecSt) :
    (grow_outarrays types s).2.rowCount = s.rowCount ∧
    (grow_outarrays types s).2.invOK = s.invOK ∧
    (grow_outarrays types s).2.cursOK = s.cursOK ∧
    (grow_outarrays types s).2.reads = s.reads ∧
    (grow_outarrays types s).2.cursor = s.cursor ∧
    (grow_outarrays types s).2.allocated = s.allocated ∧
    (((grow_outarrays types s).2.allocatedRows = s.allocatedRows ∧
      (grow_outarrays types s).2.growths = s.growths) ∨
     ((grow_outarrays types s).2.allocatedRows
        = s.allocatedRows * column_buffer_growth_factor ∧
      (grow_outarrays types s).2.growths = s.growths + 1)) ∧
    ((grow_outarrays types s).1 = false ∨
     ((grow_outarrays types s).2.allocatedRows
        = s.allocatedRows * column_buffer_growth_factor ∧
      (grow_outarrays types s).2.growths = s.growths + 1)) := by
  rw [grow_outarrays]
  split
  · exact ⟨rfl, rfl, rfl, rfl, rfl, rfl, Or.inl ⟨rfl, rfl⟩, Or.inl rfl⟩
  · split
    · exact ⟨rfl, rfl, rfl, rfl, rfl, rfl, Or.inr ⟨rfl, rfl⟩, Or.inl rfl⟩
    · have hg := grow_columns_preserves
        (s.allocatedRows * column_buffer_growth_factor) s.allocatedRows types 0
        { s with
          allocatedRows := s.allocatedRows * column_buffer_growth_factor,
          growths := s.growths + 1 }
      exact ⟨hg.1, hg.2.2.2.1, hg.2.2.2.2.1, hg.2.2.2.2.2.2.1, hg.2.2.2.2.2.2.2,
        hg.2.2.2.2.2.1, Or.inr ⟨hg.2.1, hg.2.2.1⟩, Or.inr ⟨hg.2.1, hg.2.2.1⟩⟩

/-- The growth-policy check of claim C9 on a decode result: the
row-loop-head invariant `row_count ≤ capacity` held at every iteration
(`invOK`), the capacity always equals
`starting_column_buffer_length * growth_factor ^ growths`, any growth was
demanded by the row count passing the previous capacity, on success the
row count fits the capacity — and, specialized to the claim's numbers:
a successful decode of exactly 4096 rows grew zero times, and one of
4097 rows grew exactly once, ending at capacity 8192. -/
def c9_check (r : DecRes) : Bool :=
  r.st.invOK &&
  decide (r.st.allocatedRows
    = starting_column_buffer_length * column_buffer_growth_factor ^ r.st.growths) &&
  (decide (r.st.growths = 0) ||
   decide (starting_column_buffer_length
     * column_buffer_growth_factor ^ (r.st.growths - 1) < r.st.rowCount)) &&
  (!r.isOk || decide (r.st.rowCount ≤ r.st.allocatedRows)) &&
  (!(r.isOk && decide (r.st.rowCount = 4096)) || decide (r.st.growths = 0)) &&
  (!(r.isOk && decide (r.st.rowCount = 4097)) ||
   (decide (r.st.growths = 1) && decide (r.st.allocatedRows = 8192)))

/-- `c9_check` holds at any non-success result whose state satisfies the
capacity invariants. -/
theorem c9_check_eq_true_iff (r : DecRes) :
    c9_check r = true ↔
      (r.st.invOK = true ∧
       r.st.allocatedRows
         = starting_column_buffer_length * column_buffer_growth_factor ^ r.st.growths ∧
       (r.st.growths = 0 ∨
        starting_column_buffer_length
          * column_buffer_growth_factor ^ (r.st.growths - 1) < r.st.rowCount) ∧
       (r.isOk = false ∨ r.st.rowCount ≤ r.st.allocatedRows) ∧
       (r.isOk = false ∨ ¬ r.st.rowCount = 4096 ∨ r.st.growths = 0) ∧
       (r.isOk = false ∨ ¬ r.st.rowCount = 4097 ∨
         (r.st.growths = 1 ∧ r.st.allocatedRows = 8192))) := by
  simp only [c9_check, Bool.and_eq_true, Bool.or_eq_true, decide_eq_true_eq,
    Bool.not_eq_true', Bool.and_eq_false_iff, decide_eq_false_iff_not, Bool.not_eq_true]
  tauto

/-- `c9_check` holds at any non-success result whose state satisfies the
capacity invariants. -/
theorem c9_check_not_ok (r : DecRes) (hok : r.isOk = false)
    (h1 : r.st.allocatedRows
      = starting_column_buffer_length * column_buffer_growth_factor ^ r.st.growths)
    (h3 : r.st.growths = 0 ∨
      starting_column_buffer_length
        * column_buffer_growth_factor ^ (r.st.growths - 1) < r.st.rowCount)
    (h4 : r.st.invOK = true) :
    c9_check r = true := by
  rw [c9_check_eq_true_iff]
  exact ⟨h4, h1, h3, Or.inl hok, Or.inl hok, Or.inl hok⟩

/-- `c9_check` holds at a success result whose state satisfies the
capacity invariants; the 4096/4097 specializations of the claim follow
arithmetically. -/
theorem c9_check_ok (w : Nat) (s : DecSt)
    (h1 : s.allocatedRows
      = starting_column_buffer_length * column_buffer_growth_factor ^ s.growths)
    (h2 : s.rowCount ≤ s.allocatedRows)
    (h3 : s.growths = 0 ∨
      starting_column_buffer_length
        * column_buffer_growth_factor ^ (s.growths - 1) < s.rowCount)
    (h4 : s.invOK = true) :
    c9_check (DecRes.ok w s) = true := by
  have hone : ∀ k : Nat, (1 : Nat) ≤ 2 ^ k := fun k => Nat.one_le_two_pow
  have htwo : ∀ k : Nat, k ≠ 0 → (2 : Nat) ≤ 2 ^ k := by
    intro k hk
    calc (2 : Nat) = 2 ^ 1 := by norm_num
      _ ≤ 2 ^ k := Nat.pow_le_pow_right (by norm_num) (by omega)
  rw [c9_check_eq_true_iff]
  simp only [DecRes.st, DecRes.isOk, starting_column_buffer_length,
    column_buffer_growth_factor] at *
  refine ⟨h4, h1, h3, Or.inr h2, ?_, ?_⟩
  · by_cases hr : s.rowCount = 4096
    · refine Or.inr (Or.inr ?_)
      rcases h3 with h | h
      · exact h
      · by_contra hg
        have hge : 4096 * 1 ≤ 4096 * 2 ^ (s.growths - 1) :=
          Nat.mul_le_mul_left 4096 (hone _)
        omega
    · exact Or.inr (Or.inl hr)
  · by_cases hr : s.rowCount = 4097
    · refine Or.inr (Or.inr ?_)
      have hgne : s.growths ≠ 0 := by
        rintro h0
        rw [h0] at h1
        simp only [pow_zero, Nat.mul_one] at h1
        omega
      have hg1 : s.growths = 1 := by
        by_contra hne1
        rcases h3 with h | h
        · exact hgne h
        · have hd : (2 : Nat) ≤ 2 ^ (s.growths - 1) := htwo _ (by omega)
          have hmul : 4096 * 2 ≤ 4096 * 2 ^ (s.growths - 1) :=
            Nat.mul_le_mul_left 4096 hd
          omega
      refine ⟨hg1, ?_⟩
      rw [hg1] at h1
      norm_num at h1
      exact h1
    · exact Or.inr (Or.inl hr)

/-- The row loop maintains the capacity invariant: entered with
`row_count ≤ capacity`, `capacity = 4096 * 2 ^ growths` and every past
growth demanded, `c9_check` holds of its result. -/

theorem row_loop_capacity (bytes : List Nat) (len : Nat) (types : List WPType)
    (nc : Nat) (oids : Bool) (fuel : Nat) :
    ∀ (s : DecSt),
    s.allocatedRows
      = starting_column_buffer_length * column_buffer_growth_factor ^ s.growths →
    s.rowCount ≤ s.allocatedRows →
    (s.growths = 0 ∨
      starting_column_buffer_length
        * column_buffer_growth_factor ^ (s.growths - 1) < s.rowCount) →
    s.invOK = true →
    c9_check (warp_prism_row_loop bytes len types nc oids fuel s) = true := by
  induction fuel with
  | zero =>
      intro s h1 h2 h3 h4
      rw [warp_prism_row_loop]
      exact c9_check_not_ok _ rfl h1 h3 h4
  | succ fuel ih =>
      intro s h1 h2 h3 h4
      have hs0 : (s.invOK && decide (s.rowCount ≤ s.allocatedRows)) = true := by
        simp [h4, h2]
      simp only [warp_prism_row_loop, hs0]
      split
      · exact c9_check_not_ok _ rfl h1 h3 rfl
      · split
        · exact c9_check_ok _ _ h1 h2 h3 rfl
        · split
          · exact c9_check_not_ok _ rfl h1 h3 rfl
          · split
            · exact c9_check_not_ok _ rfl h1 h3 rfl
            · next s2 heq =>
              have hs2 : s2.rowCount = s.rowCount ∧ s2.allocatedRows = s.allocatedRows ∧
                  s2.growths = s.growths ∧ s2.invOK = true := by
                split at heq
                · split at heq
                  · simp at heq
                  · rw [Option.some.injEq] at heq
                    rw [← heq]
                    exact ⟨rfl, rfl, rfl, rfl⟩
                · rw [Option.some.injEq] at heq
                  rw [← heq]
                  exact ⟨rfl, rfl, rfl, rfl⟩
              obtain ⟨hr2, ha2, hg2, hi2⟩ := hs2
              split
              · next s4 hg =>
                -- grow failed (or the no-grow pair, which is impossible here)
                split at hg
                · next hcond =>
                  have hspec := grow_outarrays_spec types
                    { s2 with rowCount := s2.rowCount + 1 }
                  rw [hg] at hspec
                  dsimp only at hspec
                  obtain ⟨hw1, hw2, _, _, _, _, hw7, _⟩ := hspec
                  refine c9_check_not_ok _ rfl ?_ ?_ ?_
                  · dsimp only [DecRes.st]
                    rcases hw7 with ⟨hwa, hwb⟩ | ⟨hwa, hwb⟩
                    · rw [hwa, hwb, ha2, hg2]
                      exact h1
                    · rw [hwa, hwb, ha2, hg2, h1, pow_succ, Nat.mul_assoc]
                  · dsimp only [DecRes.st]
                    rcases hw7 with ⟨hwa, hwb⟩ | ⟨hwa, hwb⟩
                    · rw [hwb, hg2, hw1, hr2]
                      rcases h3 with h | h
                      · exact Or.inl h
                      · exact Or.inr (by omega)
                    · refine Or.inr ?_
                      rw [hwb, hg2, hw1, hr2]
                      have hrc0 : s.rowCount = s.allocatedRows := by
                        rw [← hr2, ← ha2]; exact hcond
                      simp only [Nat.add_sub_cancel]
                      omega
                  · dsimp only [DecRes.st]
                    rw [hw2]
                    exact hi2
                · next hcond =>
                  simp at hg
              · next s4 hg =>
                -- grown (true, s4): run the column loop
                have hs4 : s4.rowCount = s.rowCount + 1 ∧ s4.invOK = true ∧
                    s4.allocatedRows
                      = starting_column_buffer_length
                          * column_buffer_growth_factor ^ s4.growths ∧
                    (s4.growths = 0 ∨
                      starting_column_buffer_length
                        * column_buffer_growth_factor ^ (s4.growths - 1) < s4.rowCount) ∧
                    s4.rowCount ≤ s4.allocatedRows := by
                  split at hg
                  · next hcond =>
                    have hspec := grow_outarrays_spec types
                      { s2 with rowCount := s2.rowCount + 1 }
                    rw [hg] at hspec
                    dsimp only at hspec
                    obtain ⟨hw1, hw2, _, _, _, _, _, hw8⟩ := hspec
                    rcases hw8 with hbad | ⟨hwa, hwb⟩
                    · simp at hbad
                    · have hrc : s.rowCount = s.allocatedRows := by
                        rw [← hr2, ← ha2]; exact hcond
                      refine ⟨by rw [hw1, hr2], by rw [hw2]; exact hi2, ?_, ?_, ?_⟩
                      · rw [hwa, hwb, ha2, hg2, h1, pow_succ, Nat.mul_assoc]
                      · refine Or.inr ?_
                        rw [hwb, hg2, hw1, hr2]
                        simp only [Nat.add_sub_cancel]
                        omega
                      · rw [hw1, hwa, hr2, ha2, hrc, h1]
                        simp only [starting_column_buffer_length,
                          column_buffer_growth_factor]
                        have hone : (1 : Nat) ≤ 2 ^ s.growths := Nat.one_le_two_pow
                        omega
                  · next hcond =>
                    rw [Prod.mk.injEq] at hg
                    rw [← hg.2]
                    have hlt : s.rowCount < s.allocatedRows := by
                      have : ¬ s2.rowCount = s2.allocatedRows := hcond
                      rw [hr2, ha2] at this
                      omega
                    refine ⟨by dsimp only; rw [hr2], hi2, ?_, ?_, ?_⟩
                    · dsimp only
                      rw [ha2, hg2]
                      exact h1
                    · dsimp only
                      rw [hg2, hr2]
                      rcases h3 with h | h
                      · exact Or.inl h
                      · exact Or.inr (by omega)
                    · dsimp only
                      rw [hr2, ha2]
                      omega
                obtain ⟨hx1, hx2, hx3, hx4, hx5⟩ := hs4
                split
                · next s5 hcols =>
                  have hp := decode_row_columns_preserves bytes len s2.rowCount types 0 s4
                  rw [hcols] at hp
                  dsimp only [ColsRes.st] at hp
                  exact c9_check_not_ok _ rfl
                    (by dsimp only [DecRes.st]; rw [hp.2.1, hp.2.2.1]; exact hx3)
                    (by dsimp only [DecRes.st]; rw [hp.2.2.1, hp.1]; exact hx4)
                    (by dsimp only [DecRes.st]; rw [hp.2.2.2.1]; exact hx2)
                · next s5 hcols =>
                  have hp := decode_row_columns_preserves bytes len s2.rowCount types 0 s4
                  rw [hcols] at hp
                  dsimp only [ColsRes.st] at hp
                  exact ih s5 (by rw [hp.2.1, hp.2.2.1]; exact hx3)
                    (by rw [hp.1, hp.2.1]; exact hx5)
                    (by rw [hp.2.2.1, hp.1]; exact hx4)
                    (by rw [hp.2.2.2.1]; exact hx2)

/-- C9: with starting capacity 4096 and growth factor exactly 2, for
every input: `row_count ≤ capacity` holds at the start of every row
iteration (`invOK`), the capacity always equals `4096 * 2 ^ growths`,
every growth was demanded by the row count passing the previous
capacity, a successful decode's row count fits the final capacity, a
successful decode of exactly 4096 rows performed no growth, and one of
4097 rows performed exactly one growth, ending at capacity 8192. -/
theorem c9_growth_policy (bytes : List Nat) (types : List WPType) (fuel : Nat) :
    c9_check (warp_prism_read_binary_results bytes types fuel) = true := by
  have hbase : ∀ (b : Bool) (s' : DecSt),
      s'.allocatedRows = starting_column_buffer_length → s'.growths = 0 →
      s'.invOK = true → c9_check (DecRes.err b s') = true := by
    intro b s' hA hG hI
    refine c9_check_not_ok _ rfl ?_ (Or.inl hG) hI
    dsimp only [DecRes.st]
    rw [hA, hG]
    simp
  simp only [warp_prism_read_binary_results]
  split
  · exact hbase _ _ rfl rfl rfl
  · split
    · exact hbase _ _ rfl rfl rfl
    · split
      · exact hbase _ _ rfl rfl rfl
      · split
        · exact hbase _ _ rfl rfl rfl
        · split
          · exact hbase _ _ rfl rfl rfl
          · split
            · exact hbase _ _ rfl rfl rfl
            · exact row_loop_capacity _ _ _ _ _ _ _ (by simp) (Nat.zero_le _)
                (Or.inl rfl) rfl

/-- Unfolding `readsInBounds` over a newly recorded read. -/
theorem readsInBounds_cons (len c k : Nat) (rs : List (Nat × Nat)) :
    readsInBounds len ((c, k) :: rs) = (decide (c + k ≤ len) && readsInBounds len rs) := by
  simp [readsInBounds]

/-- Decoding one column only records reads that are in bounds, and
leaves the cursor at or before the end of the input: every read it
performs sits behind an `assert_can_consume` check. -/
theorem decodeColumn_reads (bytes : List Nat) (len : Nat) (t : WPType) (n rowIx : Nat)
    (s : DecSt) (hr : readsInBounds len s.reads = true) (hc : s.cursor ≤ len) :
    readsInBounds len (decodeColumn bytes len t n rowIx s).st.reads = true ∧
    (decodeColumn bytes len t n rowIx s).st.cursor ≤ len := by
  simp only [decodeColumn]
  split
  · exact ⟨hr, hc⟩
  · next ha =>
    have hb : assert_can_consume 4 s.cursor len = false := by simpa using ha
    have hA := assert_can_consume_eq_false.mp hb
    have hr1 : readsInBounds len ((s.cursor, 4) :: s.reads) = true := by
      rw [readsInBounds_cons]
      simp [hr, hA.2]
    split
    · split
      · exact ⟨hr1, by dsimp only [ColRes.st]; omega⟩
      · exact ⟨hr1, by dsimp only [ColRes.st]; omega⟩
    · split
      · exact ⟨hr1, by dsimp only [ColRes.st]; omega⟩
      · next ha2 =>
        have hb2 : assert_can_consume (i32_to_size (readBE bytes s.cursor 4))
            (s.cursor + 4) len = false := by simpa using ha2
        have hA2 := assert_can_consume_eq_false.mp hb2
        have hr2 : readsInBounds len
            ((s.cursor + 4, i32_to_size (readBE bytes s.cursor 4))
              :: (s.cursor, 4) :: s.reads) = true := by
          rw [readsInBounds_cons]
          simp [hr1, hA2.2]
        split
        · exact ⟨hr2, by dsimp only [ColRes.st]; omega⟩
        · exact ⟨hr2, by dsimp only [ColRes.st]; omega⟩

/-- The per-row column loop only records in-bounds reads and keeps the
cursor at or before the end of the input. -/
theorem decode_row_columns_reads (bytes : List Nat) (len rowIx : Nat) :
    ∀ (rest : List WPType) (n : Nat) (s : DecSt),
    readsInBounds len s.reads = true → s.cursor ≤ len →
    readsInBounds len (decode_row_columns bytes len rowIx rest n s).st.reads = true ∧
    (decode_row_columns bytes len rowIx rest n s).st.cursor ≤ len
  | [], _, _, hr, hc => ⟨hr, hc⟩
  | t :: rest, n, s, hr, hc => by
      have hcol := decodeColumn_reads bytes len t n rowIx s hr hc
      rw [decode_row_columns]
      cases hcase : decodeColumn bytes len t n rowIx s with
      | next s1 =>
          rw [hcase] at hcol
          exact decode_row_columns_reads bytes len rowIx rest (n + 1) s1 hcol.1 hcol.2
      | fail s1 =>
          rw [hcase] at hcol
          have hnull := error_null_columns_preserves (typeSize t) rowIx (t :: rest) n s1
          simp only [ColsRes.st]
          rw [hnull.2.2.2.2.2.2.1, hnull.2.2.2.2.2.2.2]
          exact hcol

/-- The row loop performs only in-bounds reads and keeps the
cursor-within-input flag true: every consume is behind its
`assert_can_consume` check. -/
theorem row_loop_reads (bytes : List Nat) (len : Nat) (types : List WPType)
    (nc : Nat) (oids : Bool) (fuel : Nat) :
    ∀ (s : DecSt),
    readsInBounds len s.reads = true → s.cursor ≤ len → s.cursOK = true →
    readsInBounds len (warp_prism_row_loop bytes len types nc oids fuel s).st.reads
      = true ∧
    (warp_prism_row_loop bytes len types nc oids fuel s).st.cursOK = true := by
  induction fuel with
  | zero =>
      intro s hr hc hK
      rw [warp_prism_row_loop]
      exact ⟨hr, hK⟩
  | succ fuel ih =>
      intro s hr hc hK
      have hK0 : (s.cursOK && decide (s.cursor ≤ len)) = true := by simp [hK, hc]
      simp only [warp_prism_row_loop, hK0]
      split
      · exact ⟨hr, rfl⟩
      · next ha =>
        have hb : assert_can_consume 2 s.cursor len = false := by simpa using ha
        have hA := assert_can_consume_eq_false.mp hb
        have hr1 : readsInBounds len ((s.cursor, 2) :: s.reads) = true := by
          rw [readsInBounds_cons]
          simp [hr, hA.2]
        split
        · exact ⟨hr1, rfl⟩
        · split
          · exact ⟨hr1, rfl⟩
          · split
            · exact ⟨hr1, rfl⟩
            · next s2 heq =>
              have hs2 : readsInBounds len s2.reads = true ∧ s2.cursor ≤ len ∧
                  s2.cursOK = true := by
                split at heq
                · split at heq
                  · simp at heq
                  · next ha2 =>
                    have hb2 : assert_can_consume 4 (s.cursor + 2) len = false := by
                      simpa using ha2
                    have hA2 := assert_can_consume_eq_false.mp hb2
                    rw [Option.some.injEq] at heq
                    rw [← heq]
                    refine ⟨?_, by dsimp only; omega, by simp [hK0]⟩
                    dsimp only
                    rw [readsInBounds_cons]
                    simp [hr1, hA2.2]
                · rw [Option.some.injEq] at heq
                  rw [← heq]
                  exact ⟨hr1, by dsimp only; omega, by simp [hK0]⟩
              obtain ⟨hq1, hq2, hq3⟩ := hs2
              split
              · next s4 hg =>
                split at hg
                · have hspec := grow_outarrays_spec types
                    { s2 with rowCount := s2.rowCount + 1 }
                  rw [hg] at hspec
                  dsimp only at hspec
                  exact ⟨by dsimp only [DecRes.st]; rw [hspec.2.2.2.1]; exact hq1,
                    by dsimp only [DecRes.st]; rw [hspec.2.2.1]; exact hq3⟩
                · simp at hg
              · next s4 hg =>
                have hs4 : readsInBounds len s4.reads = true ∧ s4.cursor ≤ len ∧
                    s4.cursOK = true := by
                  split at hg
                  · have hspec := grow_outarrays_spec types
                      { s2 with rowCount := s2.rowCount + 1 }
                    rw [hg] at hspec
                    dsimp only at hspec
                    exact ⟨by rw [hspec.2.2.2.1]; exact hq1,
                      by rw [hspec.2.2.2.2.1]; exact hq2,
                      by rw [hspec.2.2.1]; exact hq3⟩
                  · rw [Prod.mk.injEq] at hg
                    rw [← hg.2]
                    exact ⟨hq1, hq2, hq3⟩
                obtain ⟨hx1, hx2, hx3⟩ := hs4
                split
                · next s5 hcols =>
                  have hrd := decode_row_columns_reads bytes len s2.rowCount types 0 s4
                    hx1 hx2
                  have hp := decode_row_columns_preserves bytes len s2.rowCount types 0 s4
                  rw [hcols] at hrd hp
                  dsimp only [ColsRes.st] at hrd hp
                  exact ⟨by dsimp only [DecRes.st]; exact hrd.1,
                    by dsimp only [DecRes.st]; rw [hp.2.2.2.2.1]; exact hx3⟩
                · next s5 hcols =>
                  have hrd := decode_row_columns_reads bytes len s2.rowCount types 0 s4
                    hx1 hx2
                  have hp := decode_row_columns_preserves bytes len s2.rowCount types 0 s4
                  rw [hcols] at hrd hp
                  dsimp only [ColsRes.st] at hrd hp
                  exact ih s5 hrd.1 hrd.2 (by rw [hp.2.2.2.2.1]; exact hx3)

/-- C6: for every input, every read the decoder performs (the signature
compare, each fixed-width consume and each `datalen`-sized value read)
satisfies `offset + size ≤ input_len` — so no byte at an offset greater
than `input_len − 1` is ever read — and the cursor-at-or-before-`input_len`
check held at every row-loop head. -/
theorem c6_reads_in_bounds (bytes : List Nat) (types : List WPType) (fuel : Nat) :
    readsInBounds bytes.length
      (warp_prism_read_binary_results bytes types fuel).st.reads = true ∧
    (warp_prism_read_binary_results bytes types fuel).st.cursOK = true := by
  simp only [warp_prism_read_binary_results]
  split
  · exact ⟨rfl, rfl⟩
  · next hlen =>
    have hsig : readsInBounds bytes.length [(0, signature_len)] = true := by
      rw [readsInBounds_cons]
      simp only [readsInBounds, List.all_nil, Bool.and_true]
      simp only [signature_len] at hlen ⊢
      simp
      omega
    split
    · exact ⟨hsig, rfl⟩
    · split
      · exact ⟨hsig, rfl⟩
      · next ha1 =>
        have hb1 : assert_can_consume 4 signature_len bytes.length = false := by
          simpa using ha1
        have hA1 := assert_can_consume_eq_false.mp hb1
        have hfl : readsInBounds bytes.length
            ((signature_len, 4) :: [(0, signature_len)]) = true := by
          rw [readsInBounds_cons]
          simp [hsig, hA1.2]
        split
        · exact ⟨hfl, rfl⟩
        · split
          · exact ⟨hfl, rfl⟩
          · next ha2 =>
            have hb2 : assert_can_consume 4 (signature_len + 4) bytes.length
                = false := by simpa using ha2
            have hA2 := assert_can_consume_eq_false.mp hb2
            have hext : readsInBounds bytes.length
                ((signature_len + 4, 4) :: (signature_len, 4) :: [(0, signature_len)])
                = true := by
              rw [readsInBounds_cons]
              simp [hfl, hA2.2]
            split
            · exact ⟨hext, rfl⟩
            · next hz =>
              have hzero : readBE bytes (signature_len + 4) 4 = 0 := by
                simpa using hz
              refine row_loop_reads bytes bytes.length types types.length _ fuel _
                hext ?_ rfl
              dsimp only
              rw [hzero]
              omega
